import Mathlib

/-!
Verification of the COMTiles index geometry and archive I/O engine.

The definitions below are a shallow embedding of the TypeScript sources:
ComtIndex (packages/provider/src/comtIndex.ts), the binary codecs and the
IndexCache/ComtCache reader (utils.ts and comtCache.ts), the mbtiles
converter writeIndex/createComTileArchive, and encodeFragmentByteAligned
(indexFactory.ts).  JavaScript numbers are modelled as Int where
subtraction can go negative and as Nat for byte values and buffer
lengths; Math.floor of a division is Int.fdiv; buffers are List Nat with
each element a byte value.  External library calls (zlib compression and
decompression, JSON parsing, HTTP fetch) are passed in as parameters or
modelled as pure slicing of the archive byte list.
-/

/-- Decidable equality for Except values, used to evaluate the embedded
fallible functions on concrete inputs. -/
instance {ε α : Type} [DecidableEq ε] [DecidableEq α] : DecidableEq (Except ε α) :=
  fun a b =>
    match a, b with
    | .ok x, .ok y =>
      if h : x = y then .isTrue (by rw [h]) else .isFalse (by intro hc; cases hc; exact h rfl)
    | .error x, .error y =>
      if h : x = y then .isTrue (by rw [h]) else .isFalse (by intro hc; cases hc; exact h rfl)
    | .ok _, .error _ => .isFalse (by intro hc; cases hc)
    | .error _, .ok _ => .isFalse (by intro hc; cases hc)

namespace ComTiles

/-- tileMatrixLimits of one zoom level (all bounds inclusive). -/
structure TileMatrixLimits where
  minTileCol : Int
  minTileRow : Int
  maxTileCol : Int
  maxTileRow : Int
deriving DecidableEq, Repr

/-- One TileMatrix entry of the metadata: zoom, aggregationCoefficient
(-1 marks a pyramid zoom, otherwise the fragment side length is
2 ^ coefficient tiles) and the limits. -/
structure TileMatrix where
  zoom : Nat
  aggregationCoefficient : Int
  tileMatrixLimits : TileMatrixLimits
deriving DecidableEq, Repr

instance : Inhabited TileMatrix := ⟨⟨0, 0, ⟨0, 0, 0, 0⟩⟩⟩

/-- The tileMatrixSet of the metadata (the CRS and ordering fields are
validated separately by the constructor and are not needed by the
arithmetic embedded here). -/
structure TileMatrixSet where
  tileMatrix : List TileMatrix
deriving DecidableEq, Repr

/-- Result type of ComtIndex.getFragmentRangeForTile. -/
structure FragmentRange where
  fragmentIndex : Int
  startOffset : Int
  endOffset : Int
deriving DecidableEq, Repr

/-- ComtIndex.inRange: bounds inclusive on both ends. -/
def inRange (x y : Int) (l : TileMatrixLimits) : Bool :=
  x ≥ l.minTileCol && x ≤ l.maxTileCol && y ≥ l.minTileRow && y ≤ l.maxTileRow

/-- Number of tiles inside limits,
(maxTileCol - minTileCol + 1) * (maxTileRow - minTileRow + 1);
the expression the sources use for numTiles and numTilesPerZoom. -/
def numTilesInLimits (l : TileMatrixLimits) : Int :=
  (l.maxTileCol - l.minTileCol + 1) * (l.maxTileRow - l.minTileRow + 1)

/-- JavaScript truthiness fallback: the source writes
(x || limit.minTileCol), which falls back when x is 0. -/
def jsOr (x fallback : Int) : Int :=
  if x = 0 then fallback else x

/-- JavaScript Math.round (num / den) for den > 0: round half up,
Math.round q = floor (q + 1/2) = floor ((2 num + den) / (2 den)). -/
def jsRound (num den : Int) : Int :=
  (2 * num + den).fdiv (2 * den)

/-- numTilesPerFragmentSide = 2 ** aggregationCoefficient.  The archive
format only uses non-negative coefficients for fragmented zooms
(a negative one other than -1 would give a fractional JS value). -/
def numTilesPerFragmentSide (c : Int) : Int :=
  2 ^ c.toNat

/-- ComtIndex.calculateBounds with x and y supplied (the sparse branch):
the dense fragment cell derived from (x, y) via the JS truthiness
fallback, intersected with the zoom limits.  The dense-only branch
(x and y omitted) is never reached from the embedded call sites. -/
def calculateBounds (c : Int) (limit : TileMatrixLimits) (x y : Int) :
    TileMatrixLimits :=
  let n := numTilesPerFragmentSide c
  let minTileColFragment := ((jsOr x limit.minTileCol).fdiv n) * n
  let minTileRowFragment := ((jsOr y limit.minTileRow).fdiv n) * n
  let dense : TileMatrixLimits :=
    ⟨minTileColFragment, minTileRowFragment,
      minTileColFragment + n - 1, minTileRowFragment + n - 1⟩
  { minTileCol := if limit.minTileCol > dense.minTileCol then limit.minTileCol else dense.minTileCol
    minTileRow := if limit.minTileRow > dense.minTileRow then limit.minTileRow else dense.minTileRow
    maxTileCol := if limit.maxTileCol < dense.maxTileCol then limit.maxTileCol else dense.maxTileCol
    maxTileRow := if limit.maxTileRow < dense.maxTileRow then limit.maxTileRow else dense.maxTileRow }

/-- ComtIndex.numberOfIndexEntriesBeforeFragment: tiles left of the
fragment within its band plus tiles below the band. -/
def numberOfIndexEntriesBeforeFragment
    (sparseFragmentBounds limit : TileMatrixLimits) : Int :=
  (sparseFragmentBounds.minTileCol - limit.minTileCol) *
      (sparseFragmentBounds.maxTileRow - limit.minTileRow + 1) +
    (limit.maxTileCol - sparseFragmentBounds.minTileCol + 1) *
      (sparseFragmentBounds.minTileRow - limit.minTileRow)

/-- ComtIndex.calculateNumberFragmentsPerZoom. -/
def calculateNumberFragmentsPerZoom (limit : TileMatrixLimits) (c : Int) : Int :=
  let n := numTilesPerFragmentSide c
  (limit.maxTileCol.fdiv n - limit.minTileCol.fdiv n + 1) *
    (limit.maxTileRow.fdiv n - limit.minTileRow.fdiv n + 1)

/-- ComtIndex.calculateNumberOfFragmentsBefore, verbatim including the
Math.round on the column count. -/
def calculateNumberOfFragmentsBefore (x y : Int)
    (denseFragmentsBounds : TileMatrixLimits) (c : Int) : Int :=
  let n := numTilesPerFragmentSide c
  let numFragmentsY := (y - denseFragmentsBounds.minTileRow).fdiv n
  let numFragmentsX :=
    jsRound (denseFragmentsBounds.maxTileCol - denseFragmentsBounds.minTileCol) n
  let numFragmentsActualRow := (numFragmentsX + 1) * (numFragmentsY + 1)
  let numFragmentsActualCol := (x - denseFragmentsBounds.minTileCol).fdiv n
  numFragmentsActualRow + numFragmentsActualCol

/-- ComtIndex.calculatePyramidIndexOffsetForTile. -/
def calculatePyramidIndexOffsetForTile (limit : TileMatrixLimits)
    (x y : Int) (offset : Int) : Int :=
  let numRows := y - limit.minTileRow
  let numCols := limit.maxTileCol - limit.minTileCol + 1
  let deltaCol := x - limit.minTileCol
  offset + (numRows * numCols + deltaCol) * 3

/-- ComtIndex.calculateFragmentIndexOffsetForTile. -/
def calculateFragmentIndexOffsetForTile (limit : TileMatrixLimits)
    (c : Int) (x y : Int) (offset : Int) : Int :=
  let sparseFragmentBounds := calculateBounds c limit x y
  let numIndexEntriesBeforeFragment :=
    numberOfIndexEntriesBeforeFragment sparseFragmentBounds limit
  let fullRows := (y - sparseFragmentBounds.minTileRow) *
    (sparseFragmentBounds.maxTileCol - sparseFragmentBounds.minTileCol + 1)
  let partialRow := x - sparseFragmentBounds.minTileCol
  let numIndexEntries := numIndexEntriesBeforeFragment + fullRows + partialRow
  offset + numIndexEntries * 3

/-- One step of the reduce inside ComtIndex.calculateIndexOffsetForTile. -/
def indexOffsetStep (zoom : Nat) (x y : Int) (offset : Int)
    (ts : TileMatrix) : Except String Int :=
  let limit := ts.tileMatrixLimits
  if ts.zoom = zoom ∧ inRange x y limit = false then
    .error "Specified tile index not part of the TileSet"
  else if ts.zoom < zoom then
    .ok (offset + numTilesInLimits limit * 3)
  else if ts.aggregationCoefficient = -1 then
    .ok (calculatePyramidIndexOffsetForTile limit x y offset)
  else
    .ok (calculateFragmentIndexOffsetForTile limit ts.aggregationCoefficient x y offset)

/-- The reduce of ComtIndex.calculateIndexOffsetForTile, written as a
plain recursion (a thrown error aborts the whole reduce, as in JS). -/
def indexOffsetFold (zoom : Nat) (x y : Int) :
    List TileMatrix → Int → Except String Int
  | [], offset => .ok offset
  | ts :: rest, offset =>
    match indexOffsetStep zoom x y offset ts with
    | .error e => .error e
    | .ok offset2 => indexOffsetFold zoom x y rest offset2

/-- ComtIndex.calculateIndexOffsetForTile: byte offset of the 3-byte
size entry of the tile in the decompressed index, and the tile ordinal
index = offset / 3. -/
def calculateIndexOffsetForTile (tms : TileMatrixSet) (zoom : Nat)
    (x y : Int) : Except String (Int × Int) :=
  match indexOffsetFold zoom x y
      (tms.tileMatrix.filter (fun tm => decide (tm.zoom ≤ zoom))) 0 with
  | .error e => .error e
  | .ok offset => .ok (offset, offset / 3)

/-- One step of the loop inside ComtIndex.getFragmentRangeForTile. -/
def fragmentRangeStep (zoom : Nat) (x y metadataLength pyramidLength : Int)
    (st : FragmentRange) (ts : TileMatrix) : Except String FragmentRange :=
  let limit := ts.tileMatrixLimits
  if ts.zoom = zoom ∧ inRange x y limit = false then
    .error "Specified tile index not part of the TileSet."
  else if ts.zoom < zoom then
    let numTilesPerZoom := numTilesInLimits limit
    let numFragmentsPerZoom :=
      calculateNumberFragmentsPerZoom limit ts.aggregationCoefficient
    .ok { fragmentIndex := st.fragmentIndex + numFragmentsPerZoom
          startOffset := st.startOffset + numTilesPerZoom * 3 + numFragmentsPerZoom * 5
          endOffset := st.endOffset }
  else
    let sparseFragmentBounds :=
      calculateBounds ts.aggregationCoefficient limit x y
    let numIndexEntriesBeforeFragment :=
      numberOfIndexEntriesBeforeFragment sparseFragmentBounds limit
    let numIndexEntriesInFragment :=
      (sparseFragmentBounds.maxTileCol - sparseFragmentBounds.minTileCol + 1) *
        (sparseFragmentBounds.maxTileRow - sparseFragmentBounds.minTileRow + 1)
    let numFragmentsBefore :=
      calculateNumberOfFragmentsBefore x y limit ts.aggregationCoefficient - 1
    let startOffset := st.startOffset + numFragmentsBefore * 5 +
      numIndexEntriesBeforeFragment * 3 + metadataLength + pyramidLength
    .ok { fragmentIndex := st.fragmentIndex
          startOffset := startOffset
          endOffset := startOffset + numIndexEntriesInFragment * 3 + 5 }

/-- The loop of ComtIndex.getFragmentRangeForTile as a recursion. -/
def fragmentRangeFold (zoom : Nat) (x y metadataLength pyramidLength : Int) :
    List TileMatrix → FragmentRange → Except String FragmentRange
  | [], st => .ok st
  | ts :: rest, st =>
    match fragmentRangeStep zoom x y metadataLength pyramidLength st ts with
    | .error e => .error e
    | .ok st2 => fragmentRangeFold zoom x y metadataLength pyramidLength rest st2

/-- ComtIndex.getFragmentRangeForTile: byte range, absolute in the
archive, of the fragment containing the tile. -/
def getFragmentRangeForTile (tms : TileMatrixSet) (zoom : Nat)
    (x y metadataLength pyramidLength : Int) : Except String FragmentRange :=
  fragmentRangeFold zoom x y metadataLength pyramidLength
    (tms.tileMatrix.filter
      (fun t => decide (t.aggregationCoefficient ≠ -1 ∧ t.zoom ≤ zoom)))
    ⟨0, 0, 0⟩

/-! Binary codecs from packages/provider/src/utils.ts (part_000). -/

/-- Byte access on a buffer modelled as a list of byte values; every
embedded call reads inside the fetched range, so the default 0 of an
out-of-range read is never observed by the theorems below. -/
def byteAt (buffer : List Nat) (i : Nat) : Nat :=
  buffer.getD i 0

/-- convertUInt40LEToNumber: getUint32 (offset + 1, littleEndian) * 0x100
+ getUint8 offset. -/
def convertUInt40LEToNumber (buffer : List Nat) (offset : Nat) : Nat :=
  (byteAt buffer (offset + 1) + byteAt buffer (offset + 2) * 256 +
      byteAt buffer (offset + 3) * 65536 + byteAt buffer (offset + 4) * 16777216) * 256 +
    byteAt buffer offset

/-- convertUInt24LEToNumber: the source concatenates the hex digits of
the three bytes in reverse order and parses them, which for byte values
below 256 is the little-endian value below. -/
def convertUInt24LEToNumber (buffer : List Nat) (offset : Nat) : Nat :=
  byteAt buffer (offset + 2) * 65536 + byteAt buffer (offset + 1) * 256 +
    byteAt buffer offset

/-! Converter utilities.  toBytesLE and calculateNumTiles live in
packages/mbtiles-converter/src/utils.ts, which is not among the
available sources; they are modelled from the spec. -/

/-- Modelled from the spec: toBytesLE of the converter utils is not in
the sources; section 4.2 (BitCodec) defines the 3-byte and 5-byte
writers as plain little-endian byte sequences of the given width. -/
def toBytesLE (value : Nat) (numBytes : Nat) : List Nat :=
  (List.range numBytes).map (fun i => value / 256 ^ i % 256)

/-- Modelled from the spec: calculateNumTiles of the converter utils is
not in the sources; per section 3 invariant 2 the pyramid entry count is
the sum over the zoom levels of numTiles of their limits. -/
def calculateNumTiles (tileMatrices : List TileMatrix) : Int :=
  (tileMatrices.map (fun tm => numTilesInLimits tm.tileMatrixLimits)).sum

/-! The writer: writeIndex and createComTileArchive from the mbtiles
converter (part_002).  The zlib compression is an external library call
and is passed in as a function parameter; the write stream is modelled
by accumulating the written bytes. -/

/-- MAX_TILE_SIZE = (1 << 20) - 1. -/
def MAX_TILE_SIZE : Nat := 2 ^ 20 - 1

/-- validateTileSize throws when the size exceeds MAX_TILE_SIZE. -/
def validateTileSize (tileSize : Nat) : Except String Unit :=
  if tileSize > MAX_TILE_SIZE then
    .error "The maximum size of a tile is limited"
  else
    .ok ()

/-- One record of the tile stream consumed by writeIndex: zoom, column,
row, byte size of the payload, and the fragment ordinal assigned by the
tile provider. -/
structure TileRecord where
  zoom : Nat
  column : Int
  row : Int
  size : Nat
  fragmentIndex : Int
deriving DecidableEq, Repr

/-- The pyramid loop of writeIndex: consumes numIndexEntriesPyramid
records from the stream, accumulates dataSectionOffset over their sizes,
validates each size and writes each as a 3-byte entry into the pyramid
index buffer.  Returns the running data offset, the decompressed pyramid
buffer and the unconsumed rest of the stream.  Exhausting the stream
early is a JS runtime error, modelled as an error value. -/
def writeIndexPyramid :
    List TileRecord → Nat → Nat → Except String (Nat × List Nat × List TileRecord)
  | rest, 0, dataSectionOffset => .ok (dataSectionOffset, [], rest)
  | [], _ + 1, _ => .error "tile stream exhausted before the pyramid was filled"
  | t :: rest, n + 1, dataSectionOffset =>
    match validateTileSize t.size with
    | .error e => .error e
    | .ok _ =>
      match writeIndexPyramid rest n (dataSectionOffset + t.size) with
      | .error e => .error e
      | .ok (dso, buf, remaining) => .ok (dso, toBytesLE t.size 3 ++ buf, remaining)

/-- State carried through the fragment loop of writeIndex, extended with
the concatenated bytes it has written, the data-section offset at which
each index entry was written (the position its payload will occupy) and
the number of zero padding entries emitted before each size entry. -/
structure FragState where
  dataSectionOffset : Nat
  previousFragmentIndex : Int
  previousIndex : Int
  indexFragmentLength : Nat
  fragBytes : List Nat
  tileWriteOffsets : List Nat
  paddings : List Nat
deriving DecidableEq, Repr

/-- The fragment loop of writeIndex: for each tile, validate the size,
write a 5-byte absolute dataSectionOffset when a new fragment starts,
compute the global tile index via ComtIndex, write
currentIndex - previousIndex - 1 zero 3-byte entries when positive, then
the 3-byte size entry. -/
def writeIndexFragmentLoop (tms : TileMatrixSet) :
    List TileRecord → FragState → Except String FragState
  | [], st => .ok st
  | t :: rest, st =>
    match validateTileSize t.size with
    | .error e => .error e
    | .ok _ =>
      let prefixBytes :=
        if t.fragmentIndex > st.previousFragmentIndex then
          toBytesLE st.dataSectionOffset 5
        else []
      match calculateIndexOffsetForTile tms t.zoom t.column t.row with
      | .error e => .error e
      | .ok r =>
        let currentIndex := r.2
        let padding := currentIndex - st.previousIndex - 1
        let padCount := if padding > 0 then padding.toNat else 0
        let padBytes := (List.replicate padCount (toBytesLE 0 3)).flatten
        writeIndexFragmentLoop tms rest
          { dataSectionOffset := st.dataSectionOffset + t.size
            previousFragmentIndex := t.fragmentIndex
            previousIndex := currentIndex
            indexFragmentLength := st.indexFragmentLength +
              (if t.fragmentIndex > st.previousFragmentIndex then 5 else 0) +
              3 * padCount + 3
            fragBytes := st.fragBytes ++ prefixBytes ++ padBytes ++ toBytesLE t.size 3
            tileWriteOffsets := st.tileWriteOffsets ++ [st.dataSectionOffset]
            paddings := st.paddings ++ [padCount] }

/-- Everything writeIndex produced: the compressed pyramid buffer it
wrote to the stream, the data offset after the pyramid loop, the final
fragment-loop state, and the pair
[compressedIndexPyramid.length, indexFragmentLength] it returns for the
header patch. -/
structure WriteIndexResult where
  compressedIndexPyramid : List Nat
  pyramidDataOffset : Nat
  frag : FragState
  returned : Nat × Nat
deriving DecidableEq, Repr

/-- writeIndex: pyramid loop, zlib compression (external, a parameter),
then the fragment loop started with previousFragmentIndex = -1 and
previousIndex = compressedIndexPyramid.length (the source mixes
compressed byte length into decompressed index units here). -/
def writeIndex (tms : TileMatrixSet) (zlib : List Nat → List Nat)
    (pyramidMaxZoom : Nat) (tiles : List TileRecord) :
    Except String WriteIndexResult :=
  let pyramidSet := tms.tileMatrix.filter (fun s => decide (s.zoom ≤ pyramidMaxZoom))
  let numIndexEntriesPyramid := (calculateNumTiles pyramidSet).toNat
  match writeIndexPyramid tiles numIndexEntriesPyramid 0 with
  | .error e => .error e
  | .ok (dso, pyramidBuffer, rest) =>
    let compressedIndexPyramid := zlib pyramidBuffer
    match writeIndexFragmentLoop tms rest
        ⟨dso, -1, (compressedIndexPyramid.length : Int), 0, [], [], []⟩ with
    | .error e => .error e
    | .ok st =>
      .ok ⟨compressedIndexPyramid, dso, st,
        (compressedIndexPyramid.length, st.indexFragmentLength)⟩

/-- writeHeader: magic COMT, version 1, metadata length, and zeroed
placeholders for the pyramid and fragment index lengths. -/
def writeHeaderBytes (metadataByteLength : Nat) : List Nat :=
  [67, 79, 77, 84] ++ toBytesLE 1 4 ++ toBytesLE metadataByteLength 4 ++
    List.replicate 4 0 ++ List.replicate 8 0

/-- The back-patch in createComTileArchive: indexStats[0] as uint32 LE at
byte 12 and indexStats[1] as uint64 LE at byte 16. -/
def patchHeader (header : List Nat) (pyramidLength fragmentLength : Nat) :
    List Nat :=
  header.take 12 ++ toBytesLE pyramidLength 4 ++ toBytesLE fragmentLength 8 ++
    header.drop 24

/-! The reader: IndexCache and ComtCache from
packages/provider/src/comtCache.ts (part_001). -/

/-- An entry of the index: relative offset and size of a tile in the
data section. -/
structure IndexEntry where
  offset : Nat
  size : Nat
deriving DecidableEq, Repr

/-- IndexCache.getIndexOffsetFragmentSection:
fragmentIndex * 5 + (indexOffsetForTile - 1) * 3. -/
def getIndexOffsetFragmentSection (fragmentIndex indexOffsetForTile : Int) : Int :=
  fragmentIndex * 5 + (indexOffsetForTile - 1) * 3

/-- IndexCache.getIndexEntryFragmentSection: size from the 3-byte entry
at byte indexOffset * 3 + 5, offset as the 5-byte base offset plus the
sum of the indexOffset preceding 3-byte entries. -/
def getIndexEntryFragmentSection (indexOffset : Nat) (indexEntries : List Nat) :
    IndexEntry :=
  { size := convertUInt24LEToNumber indexEntries (indexOffset * 3 + 5)
    offset := convertUInt40LEToNumber indexEntries 0 +
      ((List.range indexOffset).map
        (fun i => convertUInt24LEToNumber indexEntries (5 + i * 3))).sum }

/-- IndexCache.getIndexEntryPyramidSection: size from the 3-byte entry
at byte indexOffset * 3, offset as the sum of all preceding 3-byte
entries starting from 0. -/
def getIndexEntryPyramidSection (indexOffset : Nat) (indexEntries : List Nat) :
    IndexEntry :=
  { size := convertUInt24LEToNumber indexEntries (indexOffset * 3)
    offset := ((List.range indexOffset).map
      (fun i => convertUInt24LEToNumber indexEntries (i * 3))).sum }

/-- IndexCache.get on a TMS tile index.  indexChunk is the partialIndex
field kept from the initial fetch (the compressed pyramid slice), unzlib
is the external fflate.unzlibSync, and fragmentStore is the content of
the LRU cache keyed by fragment startOffset.  The source hard-codes
relativeFragmentOffset = 0 in the fragment branch and dispatches on the
literal z < 8. -/
def indexCacheGet (tms : TileMatrixSet) (indexOffset pyramidIndexLength : Int)
    (indexChunk : List Nat) (unzlib : List Nat → List Nat)
    (fragmentStore : Int → Option (List Nat)) (z : Nat) (x y : Int) :
    Except String (Option IndexEntry) :=
  match calculateIndexOffsetForTile tms z x y with
  | .error e => .error e
  | .ok r =>
    let indexOffsetForTile := r.2
    match getFragmentRangeForTile tms z x y indexOffset pyramidIndexLength with
    | .error e => .error e
    | .ok fr =>
      let idxOff : Int :=
        if z < 8 then indexOffsetForTile
        else getIndexOffsetFragmentSection fr.fragmentIndex indexOffsetForTile
      if idxOff ≤ (indexChunk.length : Int) - 3 ∧ z < 8 then
        .ok (some (getIndexEntryPyramidSection idxOff.toNat (unzlib indexChunk)))
      else
        match fragmentStore fr.startOffset with
        | none => .ok none
        | some indexFragment =>
          .ok (some (getIndexEntryFragmentSection 0 indexFragment))

/-- The numeric fields ComtCache.loadHeader extracts from the initial
chunk, together with the partialIndex slice. -/
structure HeaderModel where
  indexOffset : Nat
  pyramidIndexLength : Nat
  fragmentIndexLength : Nat
  dataOffset : Nat
  indexChunk : List Nat
deriving DecidableEq, Repr

/-- DataView.getUint32 (offset, littleEndian). -/
def readUInt32LE (buffer : List Nat) (offset : Nat) : Nat :=
  byteAt buffer offset + byteAt buffer (offset + 1) * 256 +
    byteAt buffer (offset + 2) * 65536 + byteAt buffer (offset + 3) * 16777216

/-- An 8-byte little-endian read.  ComtCache.loadHeader does NOT use
this; the spec and the writer define the fragment index length field as
uint64 LE at bytes 16..24, and this definition states that reading for
comparison with what the source actually reads. -/
def readUInt64LE (buffer : List Nat) (offset : Nat) : Nat :=
  readUInt32LE buffer offset + readUInt32LE buffer (offset + 4) * 4294967296

/-- ComtCache.loadHeader on the initial chunk: checks only the version
field (bytes 4..8), never the magic; reads the metadata length at 8, the
pyramid index length at 12 and the fragment index length as a UINT32 at
16; slices the partial index and computes
dataOffset = 24 + metadataSize + pyramidIndexLength + fragmentIndexLength.
The JSON metadata document itself is parsed by the external JSON parser
and is supplied to the resolution functions as a TileMatrixSet value. -/
def loadHeader (buffer : List Nat) : Except String HeaderModel :=
  let version := readUInt32LE buffer 4
  if version ≠ 1 then
    .error "The specified version of the COMT archive is not supported."
  else
    let metadataSize := readUInt32LE buffer 8
    let pyramidIndexLength := readUInt32LE buffer 12
    let fragmentIndexLength := readUInt32LE buffer 16
    let indexOffset := 24 + metadataSize
    let dataOffset := indexOffset + pyramidIndexLength + fragmentIndexLength
    .ok { indexOffset := indexOffset
          pyramidIndexLength := pyramidIndexLength
          fragmentIndexLength := fragmentIndexLength
          dataOffset := dataOffset
          indexChunk := (buffer.drop indexOffset).take pyramidIndexLength }

/-- An HTTP range request bytes=startOffset-endOffset against the hosted
archive: the inclusive slice of the archive bytes. -/
def rangeFetch (archive : List Nat) (startOffset endOffset : Int) : List Nat :=
  (archive.drop startOffset.toNat).take (endOffset + 1 - startOffset).toNat

/-- ComtCache.fetchIndexEntry: compute the fragment range, fetch that
byte range of the archive, insert it into the cache and resolve the tile
again through IndexCache.get. -/
def fetchIndexEntryModel (archive : List Nat) (tms : TileMatrixSet)
    (indexOffset pyramidIndexLength : Int) (indexChunk : List Nat)
    (unzlib : List Nat → List Nat) (z : Nat) (x y : Int) :
    Except String (Option IndexEntry) :=
  match getFragmentRangeForTile tms z x y indexOffset pyramidIndexLength with
  | .error e => .error e
  | .ok fr =>
    let indexFragment := rangeFetch archive fr.startOffset fr.endOffset
    indexCacheGet tms indexOffset pyramidIndexLength indexChunk unzlib
      (fun k => if k = fr.startOffset then some indexFragment else none) z x y

/-- The XYZ-to-TMS conversion and the bounds check at the top of
ComtCache.getIndexEntry: tmsY = (1 << z) - y - 1, then the requested
tile is compared against tileMatrix[z].tileMatrixLimits; outside the
limits the request resolves to empty (none), not an error. -/
def comtCacheBoundsCheck (tms : TileMatrixSet) (z : Nat) (x y : Int) :
    Option (Nat × Int × Int) :=
  let tmsY := (2 : Int) ^ z - y - 1
  let limit := (tms.tileMatrix.getD z default).tileMatrixLimits
  if x < limit.minTileCol ∨ x > limit.maxTileCol ∨
      tmsY < limit.minTileRow ∨ tmsY > limit.maxTileRow then
    none
  else
    some (z, x, tmsY)

/-- ComtCache.getIndexEntry for an XYZ request: bounds check, then
resolution through the index cache (initially empty) with a fragment
fetch on a miss; the absolute tile offset is dataOffset + entry.offset.
A second miss after the fetch leaves a null entry in the source, which
the caller dereferences: modelled as an error. -/
def comtCacheGetIndexEntry (archive : List Nat) (tms : TileMatrixSet)
    (indexOffset pyramidIndexLength : Int) (dataOffset : Nat)
    (indexChunk : List Nat) (unzlib : List Nat → List Nat)
    (z : Nat) (x y : Int) : Except String (Option (IndexEntry × Nat)) :=
  match comtCacheBoundsCheck tms z x y with
  | none => .ok none
  | some (_, tx, tmsY) =>
    match indexCacheGet tms indexOffset pyramidIndexLength indexChunk unzlib
        (fun _ => none) z tx tmsY with
    | .error e => .error e
    | .ok (some entry) => .ok (some (entry, dataOffset + entry.offset))
    | .ok none =>
      match fetchIndexEntryModel archive tms indexOffset pyramidIndexLength
          indexChunk unzlib z tx tmsY with
      | .error e => .error e
      | .ok (some entry) => .ok (some (entry, dataOffset + entry.offset))
      | .ok none => .error "null index entry dereferenced"

/-- Header bootstrap plus tile resolution: loadHeader on the archive
bytes, then ComtCache.getIndexEntry with the header fields. -/
def comtCacheResolveTile (archive : List Nat) (tms : TileMatrixSet)
    (unzlib : List Nat → List Nat) (z : Nat) (x y : Int) :
    Except String (Option (IndexEntry × Nat)) :=
  match loadHeader archive with
  | .error e => .error e
  | .ok h =>
    comtCacheGetIndexEntry archive tms (h.indexOffset : Int)
      (h.pyramidIndexLength : Int) h.dataOffset h.indexChunk unzlib z x y

/-! encodeFragmentByteAligned from
packages/mbtiles-converter/src/indexFactory.ts.  The fragmentSettings
constants (indexOffsetBitWidth = 40, indexOffsetByteWidth = 5) come from
the provider package, whose settings module is not among the sources;
the spec fixes the absolute offset at 5 bytes. -/

/-- The three sequential byte writes per tile size:
tileSize & 0xff, (tileSize >> 8) & 0xff, tileSize >> 16. -/
def encodeSizes : List Nat → List Nat
  | [] => []
  | s :: rest => s % 256 :: s / 256 % 256 :: s / 65536 :: encodeSizes rest

/-- encodeFragmentByteAligned: a buffer of ceil((40 + 24 n) / 8)
= 5 + 3 n bytes holding the 5-byte little-endian absolute offset
followed by the 3-byte little-endian tile sizes. -/
def encodeFragmentByteAligned (absoluteOffset : Nat) (tileSizes : List Nat) :
    List Nat :=
  toBytesLE absoluteOffset 5 ++ encodeSizes tileSizes

/-! Claim-side definitions: these follow the wording of the spec and of
the claims, to be compared against the embedded source functions. -/

/-- Sparse fragment bounds as the claims state them: the dense
2 ^ coeff sized fragment cell containing (x, y) intersected with the
zoom limits. -/
def specSparseFragmentBounds (n : Int) (limit : TileMatrixLimits) (x y : Int) :
    TileMatrixLimits :=
  let c0 := x.fdiv n * n
  let r0 := y.fdiv n * n
  { minTileCol := max c0 limit.minTileCol
    minTileRow := max r0 limit.minTileRow
    maxTileCol := min (c0 + n - 1) limit.maxTileCol
    maxTileRow := min (r0 + n - 1) limit.maxTileRow }

/-- entriesBeforeFragment as the spec states it: leftBefore =
(sfb.minCol - limit.minCol) * (sfb.maxRow - limit.minRow + 1) and
belowBefore = (limit.maxCol - sfb.minCol + 1) * (sfb.minRow - limit.minRow). -/
def specEntriesBeforeFragment (sfb limit : TileMatrixLimits) : Int :=
  (sfb.minTileCol - limit.minTileCol) * (sfb.maxTileRow - limit.minTileRow + 1) +
    (limit.maxTileCol - sfb.minTileCol + 1) * (sfb.minTileRow - limit.minTileRow)

/-- The zoom-z summand of the index offset as claim C4 states it:
((y - minRow) * (maxCol - minCol + 1) + (x - minCol)) * 3 for a pyramid
zoom, and (entriesBeforeFragment + fullRowsInFragment * fragmentWidth +
partialRow) * 3 over the sparse fragment bounds for a fragmented zoom. -/
def claimZoomContribution (e : TileMatrix) (x y : Int) : Int :=
  let l := e.tileMatrixLimits
  if e.aggregationCoefficient = -1 then
    ((y - l.minTileRow) * (l.maxTileCol - l.minTileCol + 1) + (x - l.minTileCol)) * 3
  else
    let n : Int := 2 ^ e.aggregationCoefficient.toNat
    let sfb := specSparseFragmentBounds n l x y
    (specEntriesBeforeFragment sfb l +
        (y - sfb.minTileRow) * (sfb.maxTileCol - sfb.minTileCol + 1) +
        (x - sfb.minTileCol)) * 3

/-- numFragmentsBefore as claim C3 states it: fragment cells in rows
below the target fragment plus cells to its left in the same row. -/
def specNumFragmentsBefore (n : Int) (limit : TileMatrixLimits) (x y : Int) : Int :=
  let cols := limit.maxTileCol.fdiv n - limit.minTileCol.fdiv n + 1
  let rowsBelow := y.fdiv n - limit.minTileRow.fdiv n
  let colsLeft := x.fdiv n - limit.minTileCol.fdiv n
  cols * rowsBelow + colsLeft

/-- The largest zoom whose aggregationCoefficient is -1 in the metadata
(-1 when there is none), as claim C7 states the pyramid boundary. -/
def pyramidMaxZoom (tms : TileMatrixSet) : Int :=
  (tms.tileMatrix.filter (fun t => decide (t.aggregationCoefficient = -1))).foldl
    (fun m t => max m (t.zoom : Int)) (-1)

/-! Concrete fixtures used by the counterexample and code-bug
evaluations. -/

/-- A tile matrix set with a one-tile pyramid zoom 0 and a fragmented
zoom 1 (coefficient 1, one 2x2 fragment covering the whole zoom). -/
def tmsW1 : TileMatrixSet :=
  ⟨[⟨0, -1, ⟨0, 0, 0, 0⟩⟩, ⟨1, 1, ⟨0, 0, 1, 1⟩⟩]⟩

/-- The tile stream for tmsW1: the single pyramid tile of size 10, then
the four zoom-1 tiles of sizes 1, 2, 3, 4 in row-major order, all in
fragment 0. -/
def tilesW1 : List TileRecord :=
  [⟨0, 0, 0, 10, 0⟩, ⟨1, 0, 0, 1, 0⟩, ⟨1, 1, 0, 2, 0⟩, ⟨1, 0, 1, 3, 0⟩, ⟨1, 1, 1, 4, 0⟩]

/-- A stand-in for the external zlib: the pyramid buffer compresses to
the three bytes [7, 7, 7] (only its length enters the arithmetic). -/
def zlibW1 : List Nat → List Nat := fun _ => [7, 7, 7]

/-- The tile payload bytes streamed by writeTiles for tilesW1 (each tile
contributes exactly its size in bytes). -/
def dataBytesW1 : List Nat :=
  List.replicate 10 9 ++ [1] ++ [2, 2] ++ [3, 3, 3] ++ [4, 4, 4, 4]

/-- The archive produced for tmsW1: patched header (metadata length 2,
pyramid length 3, fragment index length 17), a 2-byte metadata document,
then the bytes writeIndex and writeTiles streamed. -/
def archiveW1 : List Nat :=
  match writeIndex tmsW1 zlibW1 0 tilesW1 with
  | .ok r =>
    patchHeader (writeHeaderBytes 2) r.returned.1 r.returned.2 ++
      [123, 125] ++ r.compressedIndexPyramid ++ r.frag.fragBytes ++ dataBytesW1
  | .error _ => []

/-- The byte content of the (correctly written) single index fragment of
tmsW1 zoom 1: base offset 10 and the four sizes 1, 2, 3, 4. -/
def fragBytesW1 : List Nat :=
  [10, 0, 0, 0, 0, 1, 0, 0, 2, 0, 0, 3, 0, 0, 4, 0, 0]

/-- A one-tile pyramid zoom 0 plus a fragmented zoom with a single 8x8
fragment, used for the padding evaluation. -/
def tmsC5 : TileMatrixSet :=
  ⟨[⟨0, -1, ⟨0, 0, 0, 0⟩⟩, ⟨1, 3, ⟨0, 0, 7, 7⟩⟩]⟩

/-- Tile stream for tmsC5: the pyramid tile, then a single fragment tile
at ordinal 20 (19 missing tiles precede it within the fragment zoom). -/
def tilesC5 : List TileRecord :=
  [⟨0, 0, 0, 10, 0⟩, ⟨1, 3, 2, 5, 0⟩]

/-- An initial chunk whose magic is XXXX, version 1, zero metadata and
pyramid lengths, and whose 8 fragment-length bytes 16..24 hold the
uint64 value 2 ^ 32. -/
def badMagicChunk : List Nat :=
  [88, 88, 88, 88] ++ toBytesLE 1 4 ++ toBytesLE 0 4 ++ toBytesLE 0 4 ++
    [0, 0, 0, 0, 1, 0, 0, 0]

/-- Nine pyramid zoom levels 0..8, each with a single tile, so the
largest pyramid zoom is 8. -/
def tmsPyr9 : TileMatrixSet :=
  ⟨(List.range 9).map (fun i => ⟨i, -1, ⟨0, 0, 0, 0⟩⟩)⟩

/-- Whether a fallible computation returned without throwing. -/
def isOkE {α : Type} : Except String α → Bool
  | .ok _ => true
  | .error _ => false

/-- A single-zoom single-tile set for the writeIndex witness run. -/
def tmsSmall : TileMatrixSet := ⟨[⟨0, -1, ⟨0, 0, 0, 0⟩⟩]⟩

/-- The matching one-tile stream. -/
def tilesSmall : List TileRecord := [⟨0, 0, 0, 10, 0⟩]

/-- The writeIndex result on tmsSmall/tilesSmall with a stand-in zlib
returning [1, 2]. -/
def resSmall : WriteIndexResult := ⟨[1, 2], 10, ⟨10, -1, 2, 0, [], [], []⟩, (2, 0)⟩

end ComTiles


namespace ComTiles

/-- C1: the claim states that for every archive the writer produces and
every tile inside the limits, the offset the reader reconstructs agrees
with the dataSectionOffset at which the producer wrote that tile.  On
the archive built from tmsW1/tilesW1 the producer wrote the second
zoom-1 tile at data-section offset 11 (file-absolute 46 + 11 = 57), but
the reader resolves the same tile to offset 33554433 (file-absolute
33554479): getFragmentRangeForTile fetches the fragment window 5 bytes
past its true start and IndexCache.get decodes every tile of a fragment
at hard-coded local index 0, so the agreement fails. -/
theorem claim_C1_offset_agreement_code_bug :
    comtCacheResolveTile archiveW1 tmsW1 (fun b => b) 1 1 1 =
      .ok (some (⟨33554433, 768⟩, 33554479)) ∧
    (writeIndex tmsW1 zlibW1 0 tilesW1).map (fun r => r.frag.tileWriteOffsets) =
      .ok [10, 11, 13, 16] ∧
    (loadHeader archiveW1).map (fun h => h.dataOffset) = .ok 46 ∧
    (33554479 : Nat) ≠ 46 + 11 := by
  exact ⟨by decide, by decide, by decide, by decide⟩

/-- Helper: the little-endian bytes of a 5-byte write, spelled out. -/
theorem toBytesLE_five (v : Nat) :
    toBytesLE v 5 = [v % 256, v / 256 % 256, v / 65536 % 256,
      v / 16777216 % 256, v / 4294967296 % 256] := by
  have h5 : List.range 5 = [0, 1, 2, 3, 4] := rfl
  simp only [toBytesLE, h5, List.map_cons, List.map_nil]
  norm_num

/-- Helper: the length of a little-endian write is its requested width. -/
theorem toBytesLE_length (v n : Nat) : (toBytesLE v n).length = n := by
  simp [toBytesLE]

/-- Helper: decoding the 5-byte prefix written by toBytesLE restores any
value below 2 ^ 40, whatever follows the prefix. -/
theorem decode40_toBytesLE (a : Nat) (l : List Nat) (ha : a < 2 ^ 40) :
    convertUInt40LEToNumber (toBytesLE a 5 ++ l) 0 = a := by
  rw [toBytesLE_five]
  show (a / 256 % 256 + a / 65536 % 256 * 256 + a / 16777216 % 256 * 65536 +
      a / 4294967296 % 256 * 16777216) * 256 + a % 256 = a
  omega

/-- Helper: lengths of the sequential 3-byte writes. -/
theorem encodeSizes_length (tileSizes : List Nat) :
    (encodeSizes tileSizes).length = 3 * tileSizes.length := by
  induction tileSizes with
  | nil => rfl
  | cons s rest ih => simp [encodeSizes, ih]; ring

/-- Helper: indexing past a 5-element prefix. -/
theorem getD_prepend5 (p0 p1 p2 p3 p4 : Nat) (l : List Nat) (k : Nat) :
    ([p0, p1, p2, p3, p4] ++ l).getD (k + 5) 0 = l.getD k 0 := rfl

/-- Helper: the three bytes written for the i-th tile size sit at the
byte positions 3 i, 3 i + 1 and 3 i + 2 of the size section. -/
theorem encodeSizes_getD (tileSizes : List Nat) (i : Nat)
    (h : i < tileSizes.length) :
    (encodeSizes tileSizes).getD (3 * i) 0 = tileSizes.get ⟨i, h⟩ % 256 ∧
    (encodeSizes tileSizes).getD (3 * i + 1) 0 = tileSizes.get ⟨i, h⟩ / 256 % 256 ∧
    (encodeSizes tileSizes).getD (3 * i + 2) 0 = tileSizes.get ⟨i, h⟩ / 65536 := by
  induction tileSizes generalizing i with
  | nil => cases h
  | cons s rest ih =>
    cases i with
    | zero => exact ⟨rfl, rfl, rfl⟩
    | succ j =>
      have hj : j < rest.length := by simpa using Nat.lt_of_succ_lt_succ h
      have hrw : 3 * (j + 1) = 3 * j + 3 := by ring
      obtain ⟨h0, h1, h2⟩ := ih j hj
      refine ⟨?_, ?_, ?_⟩
      · rw [hrw]; exact h0
      · rw [hrw]; exact h1
      · rw [hrw]; exact h2

/-- C9: encodeFragmentByteAligned produces exactly 5 + 3 n bytes, the
40-bit decode at byte 0 restores the absolute offset, and the 24-bit
decode at byte 5 + 3 i restores the i-th tile size: decode of encode is
the identity for the byte-aligned fragment codec. -/
theorem claim_C9_codec_roundtrip (absoluteOffset : Nat) (tileSizes : List Nat)
    (ha : absoluteOffset < 2 ^ 40) (hs : ∀ s ∈ tileSizes, s < 2 ^ 24) :
    (encodeFragmentByteAligned absoluteOffset tileSizes).length =
      5 + 3 * tileSizes.length ∧
    convertUInt40LEToNumber (encodeFragmentByteAligned absoluteOffset tileSizes) 0 =
      absoluteOffset ∧
    ∀ i (h : i < tileSizes.length),
      convertUInt24LEToNumber (encodeFragmentByteAligned absoluteOffset tileSizes)
        (5 + 3 * i) = tileSizes.get ⟨i, h⟩ := by
  refine ⟨?_, decode40_toBytesLE absoluteOffset _ ha, ?_⟩
  · simp [encodeFragmentByteAligned, toBytesLE_length, encodeSizes_length]
  · intro i h
    unfold encodeFragmentByteAligned
    rw [toBytesLE_five]
    unfold convertUInt24LEToNumber byteAt
    rw [show 5 + 3 * i + 2 = 3 * i + 2 + 5 from by ring,
      show 5 + 3 * i + 1 = 3 * i + 1 + 5 from by ring,
      show 5 + 3 * i = 3 * i + 5 from by ring,
      getD_prepend5, getD_prepend5, getD_prepend5]
    obtain ⟨h0, h1, h2⟩ := encodeSizes_getD tileSizes i h
    rw [h0, h1, h2]
    have hsz : tileSizes.get ⟨i, h⟩ < 2 ^ 24 := hs _ (tileSizes.get_mem i h)
    omega

/-- C9 witness: the round trip evaluated at offset 1000 and the two
sizes 1 and 70000. -/
theorem claim_C9_witness :
    (encodeFragmentByteAligned 1000 [1, 70000]).length = 5 + 3 * 2 ∧
    convertUInt40LEToNumber (encodeFragmentByteAligned 1000 [1, 70000]) 0 = 1000 ∧
    convertUInt24LEToNumber (encodeFragmentByteAligned 1000 [1, 70000]) (5 + 3 * 1) =
      70000 := by
  have h := claim_C9_codec_roundtrip 1000 [1, 70000] (by norm_num)
    (by intro s hs; fin_cases hs <;> norm_num)
  exact ⟨h.1, h.2.1, h.2.2 1 (by decide)⟩

/-- Helper: the padding entries contribute 3 bytes each. -/
theorem padBytes_length (k : Nat) :
    ((List.replicate k (toBytesLE 0 3)).flatten).length = 3 * k := by
  induction k with
  | zero => rfl
  | succ n ih =>
    simp only [List.replicate_succ, List.flatten_cons, List.length_append, ih,
      toBytesLE_length]
    ring

/-- Helper: the fragment loop keeps its byte counter equal to the number
of bytes it has written. -/
theorem fragLoop_length_invariant (tms : TileMatrixSet) (tiles : List TileRecord)
    (st st2 : FragState) (h : writeIndexFragmentLoop tms tiles st = .ok st2)
    (hinv : st.indexFragmentLength = st.fragBytes.length) :
    st2.indexFragmentLength = st2.fragBytes.length := by
  induction tiles generalizing st with
  | nil =>
    simp only [writeIndexFragmentLoop] at h
    cases h
    exact hinv
  | cons t rest ih =>
    simp only [writeIndexFragmentLoop] at h
    cases hval : validateTileSize t.size with
    | error e => rw [hval] at h; cases h
    | ok u =>
      rw [hval] at h
      cases hidx : calculateIndexOffsetForTile tms t.zoom t.column t.row with
      | error e => rw [hidx] at h; cases h
      | ok r =>
        rw [hidx] at h
        refine ih _ h ?_
        simp only [List.length_append, toBytesLE_length, padBytes_length, hinv]
        by_cases hfrag : t.fragmentIndex > st.previousFragmentIndex
        · rw [if_pos hfrag, if_pos hfrag]
          simp [toBytesLE_length]
        · rw [if_neg hfrag, if_neg hfrag]
          simp

/-- C10: the pair writeIndex returns (and createComTileArchive patches
into the header) is exactly the bytes it wrote: the byte length of the
compressed pyramid buffer written after the metadata, and the total
bytes appended to the fragment index section, 5 per fragment-offset
prefix plus 3 per size entry including every zero padding entry. -/
theorem claim_C10_written_lengths (tms : TileMatrixSet)
    (zlib : List Nat → List Nat) (pyrMaxZoom : Nat) (tiles : List TileRecord)
    (r : WriteIndexResult) (h : writeIndex tms zlib pyrMaxZoom tiles = .ok r) :
    r.returned = (r.compressedIndexPyramid.length, r.frag.fragBytes.length) := by
  simp only [writeIndex] at h
  cases hp : writeIndexPyramid tiles
      (calculateNumTiles (tms.tileMatrix.filter
        (fun s => decide (s.zoom ≤ pyrMaxZoom)))).toNat 0 with
  | error e => rw [hp] at h; cases h
  | ok triple =>
    rw [hp] at h
    obtain ⟨dso, pyramidBuffer, rest⟩ := triple
    dsimp only at h
    cases hf : writeIndexFragmentLoop tms rest
        ⟨dso, -1, ((zlib pyramidBuffer).length : Int), 0, [], [], []⟩ with
    | error e => rw [hf] at h; cases h
    | ok st =>
      rw [hf] at h
      cases h
      have hlen := fragLoop_length_invariant tms rest _ st hf rfl
      simp [hlen]

/-- C10 witness: the theorem applied to the concrete one-tile run on
tmsSmall, whose writeIndex result is resSmall with returned pair
(2, 0). -/
theorem claim_C10_witness :
    writeIndex tmsSmall (fun _ => [1, 2]) 0 tilesSmall = .ok resSmall ∧
    resSmall.returned =
      (resSmall.compressedIndexPyramid.length, resSmall.frag.fragBytes.length) :=
  ⟨by decide,
    claim_C10_written_lengths tmsSmall (fun _ => [1, 2]) 0 tilesSmall resSmall
      (by decide)⟩

/-- C2: the claim states that the reader decodes a fragmented-zoom tile
at local index indexOffsetForTile minus the fragment first tile index,
so distinct tiles of one fragment get distinct entries.  The source
hard-codes relativeFragmentOffset = 0: on the correctly written fragment
fragBytesW1 the two distinct tiles (1,0,0) and (1,1,0) both resolve to
the entry ⟨10, 1⟩, while the claimed decode of (1,1,0) (tile index 2,
fragment first tile index 1, local index 1) is the distinct ⟨11, 2⟩. -/
theorem claim_C2_fragment_decode_code_bug :
    indexCacheGet tmsW1 26 3 [7, 7, 7] (fun b => b)
      (fun k => if k = 34 then some fragBytesW1 else none) 1 0 0 =
      .ok (some ⟨10, 1⟩) ∧
    indexCacheGet tmsW1 26 3 [7, 7, 7] (fun b => b)
      (fun k => if k = 34 then some fragBytesW1 else none) 1 1 0 =
      .ok (some ⟨10, 1⟩) ∧
    (calculateIndexOffsetForTile tmsW1 1 1 0).map (fun r => r.2) = .ok 2 ∧
    (calculateIndexOffsetForTile tmsW1 1 0 0).map (fun r => r.2) = .ok 1 ∧
    getIndexEntryFragmentSection 1 fragBytesW1 = ⟨11, 2⟩ ∧
    (⟨10, 1⟩ : IndexEntry) ≠ ⟨11, 2⟩ := by
  exact ⟨by decide, by decide, by decide, by decide, by decide, by decide⟩

/-- C3: the claim states that numFragmentsBefore counts the fragment
cells in rows below the target fragment plus those to its left, so it is
0 for the first fragment, making startOffset = 0 * 5 + 0 * 3 + 30 + 10 =
40 on a single-fragment zoom.  The source instead computes
calculateNumberOfFragmentsBefore - 1 = 1 for the very first fragment and
returns startOffset 45. -/
theorem claim_C3_fragment_range_code_bug :
    getFragmentRangeForTile ⟨[⟨3, 3, ⟨0, 0, 7, 7⟩⟩]⟩ 3 0 0 30 10 =
      .ok ⟨0, 45, 242⟩ ∧
    specNumFragmentsBefore 8 ⟨0, 0, 7, 7⟩ 0 0 = 0 ∧
    specEntriesBeforeFragment (specSparseFragmentBounds 8 ⟨0, 0, 7, 7⟩ 0 0)
      ⟨0, 0, 7, 7⟩ = 0 ∧
    calculateNumberOfFragmentsBefore 0 0 ⟨0, 0, 7, 7⟩ 3 - 1 = 1 ∧
    (45 : Int) ≠ 0 * 5 + 0 * 3 + 30 + 10 := by
  exact ⟨by decide, by decide, by decide, by decide, by decide⟩

/-- C5: the claim states that between consecutive present tiles A and B,
also across the pyramid/fragment boundary, the writer emits exactly
indexOf B - indexOf A - 1 zero entries.  With a compressed pyramid of 11
bytes, the last pyramid tile at ordinal 0 and the first fragment tile at
ordinal 20, the claim requires 19 padding entries, but the writer
initializes previousIndex with the compressed byte length 11 and emits
20 - 11 - 1 = 8. -/
theorem claim_C5_padding_code_bug :
    (writeIndex tmsC5 (fun _ => List.replicate 11 0) 0 tilesC5).map
      (fun r => r.frag.paddings) = .ok [8] ∧
    (calculateIndexOffsetForTile tmsC5 1 3 2).map (fun r => r.2) = .ok 20 ∧
    (calculateIndexOffsetForTile tmsC5 0 0 0).map (fun r => r.2) = .ok 0 ∧
    (8 : Int) ≠ 20 - 0 - 1 := by
  exact ⟨by decide, by decide, by decide, by decide⟩

/-- C6: the claim states that the reader rejects an archive whose magic
is not COMT and parses the fragment index length as the uint64 at bytes
16..24.  loadHeader never inspects the magic bytes and reads only a
uint32 at 16: on badMagicChunk (magic XXXX, fragment length 2 ^ 32) it
succeeds and computes dataOffset 24 instead of rejecting, and instead of
24 + 0 + 0 + 2 ^ 32. -/
theorem claim_C6_header_code_bug :
    badMagicChunk.take 4 ≠ (writeHeaderBytes 0).take 4 ∧
    (writeHeaderBytes 0).take 4 = [67, 79, 77, 84] ∧
    (loadHeader badMagicChunk).map (fun h => h.dataOffset) = .ok 24 ∧
    readUInt64LE badMagicChunk 16 = 4294967296 ∧
    (24 : Nat) ≠ 24 + 0 + 0 + 4294967296 := by
  exact ⟨by decide, by decide, by decide, by decide, by decide⟩

/-- C7: the claim states that getTile reads from the decompressed
pyramid buffer exactly when z is at most the largest pyramid zoom of the
metadata.  For tmsPyr9 that largest zoom is 8, yet for the in-range tile
(8, 0, 0) IndexCache.get (which dispatches on the literal z < 8) takes
the fragment path and returns a cache miss (none) instead of the pyramid
entry that the decompressed buffer holds. -/
theorem claim_C7_pyramid_dispatch_code_bug :
    pyramidMaxZoom tmsPyr9 = 8 ∧
    indexCacheGet tmsPyr9 24 100 (List.replicate 100 0)
      (fun _ => List.replicate 27 0) (fun _ => none) 8 0 0 = .ok none ∧
    getIndexEntryPyramidSection 8 (List.replicate 27 0) = ⟨0, 0⟩ := by
  exact ⟨by decide, by decide, by decide⟩

/-- Helper: folding the index-offset step over a list of zoom levels
strictly below the requested zoom never throws and adds 3 bytes per
tile of each level. -/
theorem indexOffsetFold_lt (z : Nat) (x y : Int) (l : List TileMatrix)
    (h : ∀ t ∈ l, t.zoom < z) (acc : Int) :
    indexOffsetFold z x y l acc =
      .ok (acc + 3 * (l.map (fun t => numTilesInLimits t.tileMatrixLimits)).sum) := by
  induction l generalizing acc with
  | nil => simp [indexOffsetFold]
  | cons t rest ih =>
    have ht : t.zoom < z := h t (List.mem_cons_self t rest)
    have hstep : indexOffsetStep z x y acc t =
        .ok (acc + numTilesInLimits t.tileMatrixLimits * 3) := by
      unfold indexOffsetStep
      rw [if_neg (by rintro ⟨h1, _⟩; omega), if_pos ht]
    simp only [indexOffsetFold, hstep]
    rw [ih (fun u hu => h u (List.mem_cons_of_mem _ hu))]
    congr 1
    simp only [List.map_cons, List.sum_cons]
    ring

/-- Helper: folding over an appended list splits into two folds. -/
theorem indexOffsetFold_append (z : Nat) (x y : Int) (l1 l2 : List TileMatrix)
    (acc : Int) :
    indexOffsetFold z x y (l1 ++ l2) acc =
      match indexOffsetFold z x y l1 acc with
      | .error e => .error e
      | .ok a => indexOffsetFold z x y l2 a := by
  induction l1 generalizing acc with
  | nil => simp [indexOffsetFold]
  | cons t rest ih =>
    simp only [List.cons_append, indexOffsetFold]
    cases indexOffsetStep z x y acc t with
    | error e => rfl
    | ok a => exact ih a

/-- Helper: with one entry per zoom in ascending order, filtering the
levels at most z keeps exactly the levels below z and the level z. -/
theorem filter_zoom_le (before : List TileMatrix) (e : TileMatrix)
    (after : List TileMatrix) (z : Nat) (hb : ∀ t ∈ before, t.zoom < z)
    (hz : e.zoom = z) (ha : ∀ t ∈ after, z < t.zoom) :
    (before ++ e :: after).filter (fun tm => decide (tm.zoom ≤ z)) =
      before ++ [e] := by
  rw [List.filter_append]
  congr 1
  · exact List.filter_eq_self.mpr
      (fun t ht => by simpa using Nat.le_of_lt (hb t ht))
  · rw [List.filter_cons]
    have he : (decide (e.zoom ≤ z)) = true := by simp [hz]
    rw [if_pos he]
    have : after.filter (fun tm => decide (tm.zoom ≤ z)) = [] :=
      List.filter_eq_nil_iff.mpr (fun t ht => by simpa using Nat.not_le.mpr (ha t ht))
    rw [this]

/-- Helper: inside the limits, calculateBounds with the JS truthiness
fallback computes exactly the claimed sparse fragment bounds, the dense
cell of (x, y) intersected with the limits (for non-negative limits and
a non-negative coefficient). -/
theorem calculateBounds_eq_spec (c : Int) (l : TileMatrixLimits) (x y : Int)
    (hcol : 0 ≤ l.minTileCol) (hrow : 0 ≤ l.minTileRow)
    (hr : inRange x y l = true) :
    calculateBounds c l x y =
      specSparseFragmentBounds (2 ^ c.toNat) l x y := by
  simp only [inRange, Bool.and_eq_true, decide_eq_true_eq] at hr
  obtain ⟨⟨⟨hx1, hx2⟩, hy1⟩, hy2⟩ := hr
  have hx : jsOr x l.minTileCol = x := by
    unfold jsOr; split
    · omega
    · rfl
  have hy : jsOr y l.minTileRow = y := by
    unfold jsOr; split
    · omega
    · rfl
  unfold calculateBounds specSparseFragmentBounds numTilesPerFragmentSide
  rw [hx, hy]
  set c0 := x.fdiv (2 ^ c.toNat) * 2 ^ c.toNat with hc0
  set r0 := y.fdiv (2 ^ c.toNat) * 2 ^ c.toNat with hr0
  set n := (2 : Int) ^ c.toNat with hn
  simp only [TileMatrixLimits.mk.injEq]
  refine ⟨?_, ?_, ?_, ?_⟩ <;> (split <;> omega)

/-- Helper: at the requested zoom itself, the step computes exactly the
summand claim C4 states, for a pyramid zoom or a fragmented zoom with a
non-negative coefficient. -/
theorem indexOffsetStep_at_z (z : Nat) (x y acc : Int) (e : TileMatrix)
    (hz : e.zoom = z) (hr : inRange x y e.tileMatrixLimits = true)
    (hc : e.aggregationCoefficient = -1 ∨ 0 ≤ e.aggregationCoefficient)
    (hcol : 0 ≤ e.tileMatrixLimits.minTileCol)
    (hrow : 0 ≤ e.tileMatrixLimits.minTileRow) :
    indexOffsetStep z x y acc e = .ok (acc + claimZoomContribution e x y) := by
  unfold indexOffsetStep
  rw [if_neg (by rintro ⟨_, h2⟩; rw [hr] at h2; cases h2), if_neg (by omega)]
  rcases hc with hc | hc
  · rw [if_pos hc]
    unfold calculatePyramidIndexOffsetForTile claimZoomContribution
    rw [if_pos hc]
  · have hcne : e.aggregationCoefficient ≠ -1 := by omega
    rw [if_neg hcne]
    unfold calculateFragmentIndexOffsetForTile claimZoomContribution
    rw [if_neg hcne,
      calculateBounds_eq_spec e.aggregationCoefficient e.tileMatrixLimits x y hcol hrow hr]
    rfl

/-- C4: for a tile inside the limits of zoom z (with one tile matrix per
zoom, in ascending order), calculateIndexOffsetForTile returns 3 bytes
per tile of every zoom below z plus, at zoom z, the pyramid row-major
summand when the coefficient is -1 and otherwise the fragmented summand
over the sparse fragment bounds (the dense cell of the tile intersected
with the limits), together with the tile ordinal offset / 3. -/
theorem claim_C4_index_offset_correct (before : List TileMatrix) (e : TileMatrix)
    (after : List TileMatrix) (z : Nat) (x y : Int)
    (hb : ∀ t ∈ before, t.zoom < z) (hz : e.zoom = z)
    (ha : ∀ t ∈ after, z < t.zoom)
    (hr : inRange x y e.tileMatrixLimits = true)
    (hc : e.aggregationCoefficient = -1 ∨ 0 ≤ e.aggregationCoefficient)
    (hcol : 0 ≤ e.tileMatrixLimits.minTileCol)
    (hrow : 0 ≤ e.tileMatrixLimits.minTileRow) :
    calculateIndexOffsetForTile ⟨before ++ e :: after⟩ z x y =
      .ok (3 * (before.map (fun t => numTilesInLimits t.tileMatrixLimits)).sum +
            claimZoomContribution e x y,
          (3 * (before.map (fun t => numTilesInLimits t.tileMatrixLimits)).sum +
            claimZoomContribution e x y) / 3) := by
  unfold calculateIndexOffsetForTile
  rw [filter_zoom_le before e after z hb hz ha,
    indexOffsetFold_append z x y before [e] 0,
    indexOffsetFold_lt z x y before hb 0]
  simp only []
  have hstep := indexOffsetStep_at_z z x y
    (0 + 3 * (before.map (fun t => numTilesInLimits t.tileMatrixLimits)).sum)
    e hz hr hc hcol hrow
  simp only [indexOffsetFold, hstep]
  have harith :
      0 + 3 * (before.map (fun t => numTilesInLimits t.tileMatrixLimits)).sum +
        claimZoomContribution e x y =
      3 * (before.map (fun t => numTilesInLimits t.tileMatrixLimits)).sum +
        claimZoomContribution e x y := by ring
  rw [harith]

/-- C4 witness: the theorem applied to tmsW1 at tile (1, 1, 0), a
fragmented zoom, giving byte offset 6 and tile ordinal 2. -/
theorem claim_C4_witness : calculateIndexOffsetForTile tmsW1 1 1 0 = .ok (6, 2) := by
  have h := claim_C4_index_offset_correct [⟨0, -1, ⟨0, 0, 0, 0⟩⟩]
    ⟨1, 1, ⟨0, 0, 1, 1⟩⟩ [] 1 1 0
    (by decide) rfl (by decide) (by decide) (Or.inr (by decide)) (by decide) (by decide)
  exact h.trans (by decide)

/-- Helper: at the requested zoom itself, the step never throws when the
tile is inside the limits (whatever the coefficient). -/
theorem indexOffsetStep_at_z_total (z : Nat) (x y acc : Int) (e : TileMatrix)
    (hz : e.zoom = z) (hr : inRange x y e.tileMatrixLimits = true) :
    ∃ v, indexOffsetStep z x y acc e = .ok v := by
  unfold indexOffsetStep
  rw [if_neg (by rintro ⟨_, h2⟩; rw [hr] at h2; cases h2), if_neg (by omega)]
  by_cases hc : e.aggregationCoefficient = -1
  · rw [if_pos hc]; exact ⟨_, rfl⟩
  · rw [if_neg hc]; exact ⟨_, rfl⟩

/-- Helper: the fragment-range fold over levels strictly below the
requested zoom never throws. -/
theorem fragmentRangeFold_lt_ok (z : Nat) (x y m p : Int) (l : List TileMatrix)
    (h : ∀ t ∈ l, t.zoom < z) (st : FragmentRange) :
    ∃ st2, fragmentRangeFold z x y m p l st = .ok st2 := by
  induction l generalizing st with
  | nil => exact ⟨st, rfl⟩
  | cons t rest ih =>
    have ht : t.zoom < z := h t (List.mem_cons_self t rest)
    have hstep : fragmentRangeStep z x y m p st t =
        .ok { fragmentIndex := st.fragmentIndex +
                calculateNumberFragmentsPerZoom t.tileMatrixLimits t.aggregationCoefficient
              startOffset := st.startOffset + numTilesInLimits t.tileMatrixLimits * 3 +
                calculateNumberFragmentsPerZoom t.tileMatrixLimits t.aggregationCoefficient * 5
              endOffset := st.endOffset } := by
      unfold fragmentRangeStep
      rw [if_neg (by rintro ⟨h1, _⟩; omega), if_pos ht]
    simp only [fragmentRangeFold, hstep]
    exact ih (fun u hu => h u (List.mem_cons_of_mem _ hu)) _

/-- Helper: the fragment-range fold over an appended list splits into
two folds. -/
theorem fragmentRangeFold_append (z : Nat) (x y m p : Int)
    (l1 l2 : List TileMatrix) (st : FragmentRange) :
    fragmentRangeFold z x y m p (l1 ++ l2) st =
      match fragmentRangeFold z x y m p l1 st with
      | .error e => .error e
      | .ok a => fragmentRangeFold z x y m p l2 a := by
  induction l1 generalizing st with
  | nil => simp [fragmentRangeFold]
  | cons t rest ih =>
    simp only [List.cons_append, fragmentRangeFold]
    cases fragmentRangeStep z x y m p st t with
    | error e => rfl
    | ok a => exact ih a

/-- Helper: the filter inside getFragmentRangeForTile keeps the
fragmented levels below z, plus the level-z entry exactly when it is
fragmented. -/
theorem filter_frag_pred (before : List TileMatrix) (e : TileMatrix)
    (after : List TileMatrix) (z : Nat)
    (hz : e.zoom = z) (ha : ∀ t ∈ after, z < t.zoom) :
    (before ++ e :: after).filter
        (fun t => decide (t.aggregationCoefficient ≠ -1 ∧ t.zoom ≤ z)) =
      before.filter (fun t => decide (t.aggregationCoefficient ≠ -1 ∧ t.zoom ≤ z)) ++
        (if e.aggregationCoefficient = -1 then [] else [e]) := by
  rw [List.filter_append]
  congr 1
  rw [List.filter_cons]
  have hafter : after.filter
      (fun t => decide (t.aggregationCoefficient ≠ -1 ∧ t.zoom ≤ z)) = [] :=
    List.filter_eq_nil_iff.mpr
      (fun t ht => by
        simp only [decide_eq_true_eq, not_and]
        intro _
        exact Nat.not_le.mpr (ha t ht))
  rw [hafter]
  by_cases hc : e.aggregationCoefficient = -1
  · rw [if_neg (by simp [hc]), if_pos hc]
  · rw [if_pos (by simp [hc, hz]), if_neg hc]

/-- Helper: every element kept by the fragment filter over the levels
below z still has zoom below z. -/
theorem mem_filter_frag_lt (before : List TileMatrix) (z : Nat)
    (hb : ∀ t ∈ before, t.zoom < z) :
    ∀ t ∈ before.filter
        (fun t => decide (t.aggregationCoefficient ≠ -1 ∧ t.zoom ≤ z)),
      t.zoom < z :=
  fun t ht => hb t (List.mem_of_mem_filter ht)

/-- Helper: getD at the position right after a prefix of known length. -/
theorem getD_append_cons {α : Type} (l1 : List α) (a : α) (l2 : List α) (d : α) :
    (l1 ++ a :: l2).getD l1.length d = a := by
  induction l1 with
  | nil => rfl
  | cons b rest ih => simpa using ih

/-- Helper: a Bool-level reading of a failed inRange check as the
disjunction that ComtCache.getIndexEntry tests. -/
theorem inRange_false_iff (x y : Int) (l : TileMatrixLimits) :
    inRange x y l = false ↔
      (x < l.minTileCol ∨ x > l.maxTileCol ∨ y < l.minTileRow ∨ y > l.maxTileRow) := by
  simp only [inRange, Bool.and_eq_false_iff, decide_eq_false_iff_not, not_le]
  omega

/-- C8 amended: calculateIndexOffsetForTile throws exactly when the
requested (x, y) is outside the limits of the requested zoom (bounds
inclusive); getFragmentRangeForTile throws exactly when, in addition,
the requested zoom is fragmented (for a pyramid zoom it returns without
error even out of range); and ComtCache.getIndexEntry converts the
request with tmsY = (1 << z) - y - 1 and resolves to empty (ok none),
not an error, when the converted address is outside the limits. -/
theorem claim_C8_amended (before : List TileMatrix) (e : TileMatrix)
    (after : List TileMatrix) (z : Nat) (x y m p : Int)
    (archive indexChunk : List Nat) (indexOffset pyramidIndexLength : Int)
    (dataOffset : Nat) (unzlib : List Nat → List Nat) (xq yq : Int)
    (hb : ∀ t ∈ before, t.zoom < z) (hz : e.zoom = z)
    (ha : ∀ t ∈ after, z < t.zoom) (hlen : before.length = z) :
    (isOkE (calculateIndexOffsetForTile ⟨before ++ e :: after⟩ z x y) =
      inRange x y e.tileMatrixLimits) ∧
    (isOkE (getFragmentRangeForTile ⟨before ++ e :: after⟩ z x y m p) =
      (decide (e.aggregationCoefficient = -1) || inRange x y e.tileMatrixLimits)) ∧
    (inRange xq ((2 : Int) ^ z - yq - 1) e.tileMatrixLimits = false →
      comtCacheGetIndexEntry archive ⟨before ++ e :: after⟩ indexOffset
        pyramidIndexLength dataOffset indexChunk unzlib z xq yq = .ok none) := by
  refine ⟨?_, ?_, ?_⟩
  · unfold calculateIndexOffsetForTile
    rw [filter_zoom_le before e after z hb hz ha,
      indexOffsetFold_append z x y before [e] 0,
      indexOffsetFold_lt z x y before hb 0]
    simp only []
    cases hr : inRange x y e.tileMatrixLimits with
    | false =>
      have hstep : indexOffsetStep z x y
          (3 * (before.map (fun t => numTilesInLimits t.tileMatrixLimits)).sum) e =
          .error "Specified tile index not part of the TileSet" := by
        unfold indexOffsetStep
        rw [if_pos ⟨hz, hr⟩]
      simp [indexOffsetFold, hstep, isOkE]
    | true =>
      have hstep := indexOffsetStep_at_z_total z x y
        (3 * (before.map (fun t => numTilesInLimits t.tileMatrixLimits)).sum) e hz hr
      obtain ⟨v, hv⟩ := hstep
      simp [indexOffsetFold, hv, isOkE]
  · unfold getFragmentRangeForTile
    rw [filter_frag_pred before e after z hz ha]
    obtain ⟨st1, hst1⟩ := fragmentRangeFold_lt_ok z x y m p
      (before.filter (fun t => decide (t.aggregationCoefficient ≠ -1 ∧ t.zoom ≤ z)))
      (mem_filter_frag_lt before z hb) ⟨0, 0, 0⟩
    by_cases hc : e.aggregationCoefficient = -1
    · rw [if_pos hc, List.append_nil, hst1]
      simp [isOkE, hc]
    · rw [if_neg hc, fragmentRangeFold_append z x y m p _ [e] _, hst1]
      simp only []
      cases hr : inRange x y e.tileMatrixLimits with
      | false =>
        have hstep : fragmentRangeStep z x y m p st1 e =
            .error "Specified tile index not part of the TileSet." := by
          unfold fragmentRangeStep
          rw [if_pos ⟨hz, hr⟩]
        simp [fragmentRangeFold, hstep, isOkE, hc]
      | true =>
        have hstep : ∃ st2, fragmentRangeStep z x y m p st1 e = .ok st2 := by
          unfold fragmentRangeStep
          rw [if_neg (by rintro ⟨_, h2⟩; rw [hr] at h2; cases h2),
            if_neg (by omega)]
          exact ⟨_, rfl⟩
        obtain ⟨st2, hst2⟩ := hstep
        simp [fragmentRangeFold, hst2, isOkE, hc]
  · intro hout
    have hgetD : ((before ++ e :: after).getD z default) = e := by
      rw [← hlen]
      exact getD_append_cons before e after default
    unfold comtCacheGetIndexEntry comtCacheBoundsCheck
    simp only [hgetD]
    rw [if_pos ((inRange_false_iff _ _ _).mp hout)]

/-- C8 witness: the amended theorem applied to tmsW1 at the out-of-range
request x = 5 on zoom 1 (both as a TMS tile and as an XYZ request):
both index functions throw, and getIndexEntry resolves to empty. -/
theorem claim_C8_witness :
    isOkE (calculateIndexOffsetForTile tmsW1 1 5 0) = false ∧
    isOkE (getFragmentRangeForTile tmsW1 1 5 0 0 0) = false ∧
    comtCacheGetIndexEntry [] tmsW1 0 0 0 [] (fun b => b) 1 5 1 = .ok none := by
  have h := claim_C8_amended [⟨0, -1, ⟨0, 0, 0, 0⟩⟩] ⟨1, 1, ⟨0, 0, 1, 1⟩⟩ []
    1 5 0 0 0 [] [] 0 0 0 (fun b => b) 5 1
    (by decide) rfl (by decide) rfl
  exact ⟨h.1.trans (by decide), h.2.1.trans (by decide), h.2.2 (by decide)⟩

/-- C8 counterexample: the claim states that getFragmentRangeForTile
throws exactly when the requested tile is outside the limits of the
requested zoom; but when that zoom is a pyramid zoom (coefficient -1)
the zoom is filtered out before the range check, so the out-of-range
request (0, 5, 5) returns without error. -/
theorem claim_C8_counterexample :
    inRange 5 5 ⟨0, 0, 0, 0⟩ = false ∧
    getFragmentRangeForTile ⟨[⟨0, -1, ⟨0, 0, 0, 0⟩⟩]⟩ 0 5 5 0 0 =
      .ok ⟨0, 0, 0⟩ := by
  exact ⟨by decide, by decide⟩

end ComTiles
